import Mathlib

/-!
# Verification of the CV-ranking pipeline

Shallow embedding of the scoring, parsing and ranking functions of the
CV-ranking application (files `components.py`, `utils.py`, `ranker.py`,
`similarity_checking.py`, `app.py`), together with proofs of the
specification claims.

Modelling conventions:
* Python `float` arithmetic is modelled over `ℚ` (the literals `0.4`/`0.6`
  become `2/5`/`3/5`).
* Python strings are Lean `String`s; character-level scanning works on
  `String.data`.
* The regular-expression classes `\s` and `\d` are modelled over the ASCII
  whitespace/digit characters that occur in the data handled by the app.
* Library calls that leave the process (the SBERT encoder, the LLM call)
  are parameters of the embedding: an `Option`/`Except` valued oracle,
  `none`/`.error` meaning "the call raised".
-/

/-- The whitespace class `\s` of the Python `re` module (ASCII part):
space, tab, newline, carriage return, vertical tab, form feed. -/
def pyWs (c : Char) : Bool :=
  c = ' ' || c = '\t' || c = '\n' || c = '\r' || c = '\x0b' || c = '\x0c'

/-- Numeric value of a digit string, as computed by Python `int()` on the
captured group (`int.foldl` over decimal digits). -/
def digitsToNat (ds : List Char) : ℕ :=
  ds.foldl (fun a c => a * 10 + (c.toNat - 48)) 0

/-- One attempt of the regex `Rating:\s*(\d+)/10` anchored at the head of
`cs` (embeds the body of `re.search` at one start position, from
`components.py`, `extract_rating`): the literal `Rating:`, then greedily
skipped whitespace, then a maximal non-empty digit run that must be
followed by the literal `/10`.  Returns the captured integer. -/
def matchRatingAt (cs : List Char) : Option ℕ :=
  if cs.take 7 = ['R', 'a', 't', 'i', 'n', 'g', ':'] then
    let rest := (cs.drop 7).dropWhile pyWs
    let ds := rest.takeWhile Char.isDigit
    if ds = [] then none
    else if (rest.drop ds.length).take 3 = ['/', '1', '0'] then
      some (digitsToNat ds)
    else none
  else none

/-- Leftmost-match search of `re.search`: try `matchRatingAt` at every
start position, left to right. -/
def ratingAux : List Char → ℕ
  | [] => 0
  | c :: cs =>
    match matchRatingAt (c :: cs) with
    | some n => n
    | none => ratingAux cs

/-- Embeds `components.extract_rating`: parse a rating out of the ranker LLM
output, searching for `Rating: <n>/10`; `0` if not found. -/
def extract_rating (text : String) : ℕ :=
  ratingAux text.data

/-- Left part of Python `str.strip()`: drop leading whitespace. -/
def stripL (l : List Char) : List Char := l.dropWhile pyWs

/-- Right part of Python `str.strip()`: drop trailing whitespace. -/
def stripR (l : List Char) : List Char := (l.reverse.dropWhile pyWs).reverse

/-- Python `str.strip()` (ASCII whitespace): drop whitespace from both
ends of the string. -/
def pyStrip (s : String) : String := ⟨stripR (stripL s.data)⟩

/-- Python `str.lower()` (ASCII): lower-case every character. -/
def pyLower (s : String) : String := ⟨s.data.map Char.toLower⟩

/-- The normalisation `s.lower().strip()` applied to each skill inside
`calculate_exact_match` (`similarity_checking.py`). -/
def normSkill (s : String) : String := pyStrip (pyLower s)

/-- The Python set `set([s.lower().strip() for s in (skills or []) if s])`
built by `calculate_exact_match`.  A Python `set` is modelled as the
deduplicated list of its elements: cardinality and intersection, the only
operations the code performs, agree with set semantics. -/
def skillSet (skills : List String) : List String :=
  ((skills.filter (fun s => s ≠ "")).map normSkill).dedup

/-- Embeds `similarity_checking.calculate_exact_match(jd_skills, resume_skills)`:
percentage of required (JD) skills literally present among the candidate
skills, after case-folding/stripping/deduplication; `0` when the required
set is empty. -/
def calculate_exact_match (jd_skills resume_skills : List String) : ℚ :=
  if skillSet jd_skills = [] then 0
  else (((skillSet jd_skills).inter (skillSet resume_skills)).length : ℚ) /
    ((skillSet jd_skills).length : ℚ) * 100

/-- Embeds `similarity_checking.calculate_skills_match(resume_skills, jd_skills)`.
The SBERT embedding + cosine-similarity computation leaves the process, so
it is a parameter `sem`; `sem r j = none` models both "the model failed to
load" and "encoding raised", in which case the code falls back to
`calculate_exact_match` on the filtered lists.  Empty (filtered) inputs
short-circuit to `0`. -/
def calculate_skills_match (sem : List String → List String → Option ℚ)
    (resume_skills jd_skills : List String) : ℚ :=
  let r := resume_skills.filter (fun s => s ≠ "")
  let j := jd_skills.filter (fun s => s ≠ "")
  if r = [] ∨ j = [] then 0
  else
    match sem r j with
    | some v => v
    | none => calculate_exact_match j r

/-- Embeds `similarity_checking.calculate_final_skills_match(jd_skills,
resume_skills)`: weighted fusion `exact*0.4 + semantic*0.6` (floats
modelled as rationals). -/
def calculate_final_skills_match (sem : List String → List String → Option ℚ)
    (jd_skills resume_skills : List String) : ℚ :=
  calculate_exact_match jd_skills resume_skills * (2/5) +
    calculate_skills_match sem resume_skills jd_skills * (3/5)

/-- Embeds `ranker.get_rank_from_ollama`.  The LLM transport (litellm
`completion`) is the parameter: `.ok content` is a successful call
returning `content`, `.error e` a transport exception with message `e`,
turned into the synthetic payload `f"Error calling Ollama model: {e}"`. -/
def get_rank_from_ollama (call : Except String String) : String :=
  match call with
  | .ok content => content
  | .error e => "Error calling Ollama model: " ++ e

/-- A Python value of the shapes handled by `_ensure_skill_list`:
`None`, strings, numbers, lists and (string-keyed) dicts. -/
inductive PyVal where
  | none
  | str (s : String)
  | int (n : Int)
  | list (xs : List PyVal)
  | dict (entries : List (String × PyVal))

/-- Python truthiness (`if not x`, `if s`) for the embedded values. -/
def pyTruthy : PyVal → Bool
  | .none => false
  | .str s => !(s == "")
  | .int n => !(n == 0)
  | .list xs => !xs.isEmpty
  | .dict d => !d.isEmpty

mutual
/-- Python `repr` of the embedded values (enough of it for `str(x)` on
non-string values in the fallback branch of `_ensure_skill_list`). -/
def pyRepr : PyVal → String
  | .none => "None"
  | .str s => "\x27" ++ s ++ "\x27"
  | .int n => toString n
  | .list xs => "[" ++ String.intercalate ", " (pyReprList xs) ++ "]"
  | .dict d => "\x7b" ++ String.intercalate ", " (pyReprDict d) ++ "\x7d"

def pyReprList : List PyVal → List String
  | [] => []
  | v :: vs => pyRepr v :: pyReprList vs

def pyReprDict : List (String × PyVal) → List String
  | [] => []
  | (k, v) :: vs => ("\x27" ++ k ++ "\x27: " ++ pyRepr v) :: pyReprDict vs
end

/-- Python `str(x)`. -/
def pyStr : PyVal → String
  | .str s => s
  | v => pyRepr v

/-- Dict lookup `d[k]` / `k in d`. -/
def dictGet (d : List (String × PyVal)) (k : String) : Option PyVal :=
  (d.find? (fun kv => kv.1 == k)).map Prod.snd

/-- Python iteration `for s in v`: lists yield their elements, strings
their characters, dicts their keys; `None` and numbers are not iterable
(iterating them raises `TypeError`, modelled as `none`). -/
def pyIter : PyVal → Option (List PyVal)
  | .list xs => some xs
  | .str s => some (s.data.map fun c => .str (String.mk [c]))
  | .dict d => some (d.map fun kv => .str kv.1)
  | .none => Option.none
  | .int _ => Option.none

/-- The comprehension `[str(s).strip() for s in vs if s]` shared by the
list/dict branches of `_ensure_skill_list`. -/
def cleanSkills (vs : List PyVal) : List String :=
  (vs.filter pyTruthy).map fun v => pyStrip (pyStr v)

/-- The fallback branch of `_ensure_skill_list`:
`[p.strip() for p in str(x).split(",") if p.strip()]`. -/
def fallbackSplit (x : PyVal) : Except String (List String) :=
  .ok ((((pyStr x).splitOn ",").map pyStrip).filter (fun p => p ≠ ""))

/-- The key probing order of the dict branch of `_ensure_skill_list`:
the `Technical Skills` entry of the `result` entry (defaulting to `[]`) when `result`
maps to a dict, else the value under `Technical Skills`, else the value
under `Skills Required`; `none` when no branch applies (the code then
falls through to the comma-split fallback). -/
def dictSkillField (d : List (String × PyVal)) : Option PyVal :=
  match dictGet d "result" with
  | some (.dict r) => some ((dictGet r "Technical Skills").getD (.list []))
  | _ =>
    match dictGet d "Technical Skills" with
    | some v => some v
    | Option.none =>
      match dictGet d "Skills Required" with
      | some v => some v
      | Option.none => Option.none

/-- Embeds `similarity_checking._ensure_skill_list`: normalize a variety of
possible skill representations into a list of strings.  `.error` marks an
uncaught Python exception (iterating a non-iterable skills field). -/
def _ensure_skill_list (x : PyVal) : Except String (List String) :=
  if !pyTruthy x then .ok []
  else
    match x with
    | .list xs => .ok (cleanSkills xs)
    | .dict d =>
      match dictSkillField d with
      | some v =>
        match pyIter v with
        | some vs => .ok (cleanSkills vs)
        | Option.none => .error "TypeError"
      | Option.none => fallbackSplit x
    | _ => fallbackSplit x

/-- Result dict of `process_resume_and_jd` (the `explanation` string is
display-only and omitted); `isError` marks the `except` branch. -/
structure SkillMatchResult where
  final_match_score : ℚ
  score : ℚ
  isError : Bool
deriving DecidableEq

/-- Embeds `similarity_checking.process_resume_and_jd`: extract skills from both
inputs and combine into the final percentage; any exception is caught and
yields a zeroed score. -/
def process_resume_and_jd (sem : List String → List String → Option ℚ)
    (resume_data jd_data : PyVal) : SkillMatchResult :=
  match _ensure_skill_list resume_data, _ensure_skill_list jd_data with
  | .ok rs, .ok js =>
    let f := calculate_final_skills_match sem js rs
    ⟨f, f, false⟩
  | _, _ => ⟨0, 0, true⟩

/-- One uploaded candidate as seen by the ranking loop of `app.py`:
display name, the raw LLM response for this candidate (the transport is an
oracle, see `get_rank_from_ollama`), and the raw value of the resume
`"Technical Skills"` field. -/
structure Candidate where
  name : String
  response : String
  resumeSkills : PyVal

/-- One entry of the `rankings` list built by `app.py`. -/
structure RankingResult where
  name : String
  score_and_explanation : String
  skill_match_result : SkillMatchResult
  aggregate_score : ℚ

/-- The body of the per-candidate loop in `app.py` (lines 242-286):
compute the skill match (or `0` when the JD skill value is falsy), the
experience score `extract_rating(response) * 10`, and the aggregate
`experience_score*0.4 + skill_score*0.6`. -/
def processCandidate (sem : List String → List String → Option ℚ)
    (jdSkills : PyVal) (c : Candidate) : RankingResult :=
  let skillRes : SkillMatchResult :=
    if pyTruthy jdSkills then
      process_resume_and_jd sem
        (.dict [("result", .dict [("Technical Skills", c.resumeSkills)])])
        (.dict [("Skills Required", jdSkills)])
    else ⟨0, 0, false⟩
  let experience_score : ℚ := (extract_rating c.response : ℚ) * 10
  { name := c.name
    score_and_explanation := c.response
    skill_match_result := skillRes
    aggregate_score := experience_score * (2/5) +
      skillRes.final_match_score * (3/5) }

/-- The ranking engine of `app.py`: score every candidate, then
`rankings.sort(key=lambda x: x["aggregate_score"], reverse=True)`.
The Python sort is stable; it is embedded as the stable `List.mergeSort`
with the descending comparator. -/
def rank_candidates (sem : List String → List String → Option ℚ)
    (jdSkills : PyVal) (cs : List Candidate) : List RankingResult :=
  (cs.map (processCandidate sem jdSkills)).mergeSort
    (fun a b => decide (b.aggregate_score ≤ a.aggregate_score))

/-- A parsed JSON value (`json.loads` output).  Numbers are modelled by
their integer subset; the inputs handled by the claims contain no float
literals. -/
inductive Json where
  | null
  | bool (b : Bool)
  | num (n : Int)
  | str (s : String)
  | arr (xs : List Json)
  | obj (fields : List (String × Json))

/-- JSON insignificant whitespace. -/
def jsonWs (c : Char) : Bool :=
  c = ' ' || c = '\t' || c = '\n' || c = '\r'

def skipJsonWs (cs : List Char) : List Char := cs.dropWhile jsonWs

/-- Hex digit value, for `\uXXXX` escapes. -/
def hexVal (c : Char) : Option ℕ :=
  if '0' ≤ c ∧ c ≤ '9' then some (c.toNat - 48)
  else if 'a' ≤ c ∧ c ≤ 'f' then some (c.toNat - 87)
  else if 'A' ≤ c ∧ c ≤ 'F' then some (c.toNat - 55)
  else Option.none

/-- Body of a JSON string literal, after the opening quote: returns the
decoded characters and the input remaining after the closing quote.
Escapes are decoded; raw control characters are rejected (as by
`json.loads` in its default strict mode). -/
def parseStringBody : List Char → Option (List Char × List Char)
  | [] => Option.none
  | c :: cs =>
    if c = '"' then some ([], cs)
    else if c = '\\' then
      match cs with
      | [] => Option.none
      | e :: cs' =>
        if e = '"' then (parseStringBody cs').map (fun p => ('"' :: p.1, p.2))
        else if e = '\\' then (parseStringBody cs').map (fun p => ('\\' :: p.1, p.2))
        else if e = '/' then (parseStringBody cs').map (fun p => ('/' :: p.1, p.2))
        else if e = 'b' then (parseStringBody cs').map (fun p => ('\x08' :: p.1, p.2))
        else if e = 'f' then (parseStringBody cs').map (fun p => ('\x0c' :: p.1, p.2))
        else if e = 'n' then (parseStringBody cs').map (fun p => ('\n' :: p.1, p.2))
        else if e = 'r' then (parseStringBody cs').map (fun p => ('\r' :: p.1, p.2))
        else if e = 't' then (parseStringBody cs').map (fun p => ('\t' :: p.1, p.2))
        else if e = 'u' then
          match cs' with
          | h1 :: h2 :: h3 :: h4 :: cs'' =>
            (match hexVal h1, hexVal h2, hexVal h3, hexVal h4 with
             | some a, some b, some c2, some d =>
               (parseStringBody cs'').map
                 (fun p => (Char.ofNat (((a * 16 + b) * 16 + c2) * 16 + d) :: p.1, p.2))
             | _, _, _, _ => Option.none)
          | _ => Option.none
        else Option.none
    else if c.toNat < 32 then Option.none
    else (parseStringBody cs).map (fun p => (c :: p.1, p.2))

/-- A JSON number literal (integer subset: optional minus, no leading
zeros, and no fraction/exponent part). -/
def parseNumber (cs : List Char) : Option (Int × List Char) :=
  let (neg, cs₁) : Bool × List Char :=
    match cs with
    | '-' :: t => (true, t)
    | _ => (false, cs)
  let ds := cs₁.takeWhile Char.isDigit
  let rest := cs₁.drop ds.length
  if ds = [] then Option.none
  else if ds.length > 1 ∧ ds.take 1 = ['0'] then Option.none
  else
    match rest with
    | '.' :: _ => Option.none
    | 'e' :: _ => Option.none
    | 'E' :: _ => Option.none
    | _ => some (if neg then -(digitsToNat ds : Int) else (digitsToNat ds : Int), rest)

mutual
/-- Recursive-descent JSON value parser (the grammar accepted by
`json.loads`, on the integer subset of numbers); fuel bounds the nesting
recursion. -/
def parseValue : ℕ → List Char → Option (Json × List Char)
  | 0, _ => Option.none
  | fuel + 1, cs₀ =>
    match skipJsonWs cs₀ with
    | [] => Option.none
    | c :: rest =>
      if c = '"' then
        match parseStringBody rest with
        | some (b, r) => some (.str ⟨b⟩, r)
        | Option.none => Option.none
      else if c = '\x7b' then
        match skipJsonWs rest with
        | '\x7d' :: r => some (.obj [], r)
        | cs₁ =>
          match parseMembers fuel cs₁ with
          | some (fs, r) => some (.obj fs, r)
          | Option.none => Option.none
      else if c = '[' then
        match skipJsonWs rest with
        | ']' :: r => some (.arr [], r)
        | cs₁ =>
          match parseElems fuel cs₁ with
          | some (xs, r) => some (.arr xs, r)
          | Option.none => Option.none
      else if c = 't' then
        match rest with
        | 'r' :: 'u' :: 'e' :: r => some (.bool true, r)
        | _ => Option.none
      else if c = 'f' then
        match rest with
        | 'a' :: 'l' :: 's' :: 'e' :: r => some (.bool false, r)
        | _ => Option.none
      else if c = 'n' then
        match rest with
        | 'u' :: 'l' :: 'l' :: r => some (.null, r)
        | _ => Option.none
      else
        match parseNumber (c :: rest) with
        | some (n, r) => some (.num n, r)
        | Option.none => Option.none

/-- Members of a JSON object, positioned at the first key (the empty
object is handled by `parseValue`). -/
def parseMembers : ℕ → List Char → Option (List (String × Json) × List Char)
  | 0, _ => Option.none
  | fuel + 1, cs =>
    match skipJsonWs cs with
    | '"' :: rest =>
      match parseStringBody rest with
      | some (k, r₁) =>
        match skipJsonWs r₁ with
        | ':' :: r₂ =>
          match parseValue fuel r₂ with
          | some (v, r₃) =>
            match skipJsonWs r₃ with
            | ',' :: r₄ =>
              match parseMembers fuel r₄ with
              | some (fs, r₅) => some ((⟨k⟩, v) :: fs, r₅)
              | Option.none => Option.none
            | '\x7d' :: r₄ => some ([(⟨k⟩, v)], r₄)
            | _ => Option.none
          | Option.none => Option.none
        | _ => Option.none
      | Option.none => Option.none
    | _ => Option.none

/-- Elements of a JSON array, positioned at the first element (the empty
array is handled by `parseValue`). -/
def parseElems : ℕ → List Char → Option (List Json × List Char)
  | 0, _ => Option.none
  | fuel + 1, cs =>
    match parseValue fuel cs with
    | some (v, r₁) =>
      match skipJsonWs r₁ with
      | ',' :: r₂ =>
        match parseElems fuel r₂ with
        | some (xs, r₃) => some (v :: xs, r₃)
        | Option.none => Option.none
      | ']' :: r₂ => some ([v], r₂)
      | _ => Option.none
    | Option.none => Option.none
end

/-- Embeds `json.loads`: parse one JSON value and require only trailing
whitespace after it. -/
def json_loads (s : String) : Option Json :=
  match parseValue (s.length + 1) s.data with
  | some (v, rest) => if skipJsonWs rest = [] then some v else Option.none
  | Option.none => Option.none

/-- Index of the first opening brace (`response.find` in `utils.py`). -/
def findBraceIdx : List Char → Option ℕ
  | [] => Option.none
  | c :: cs =>
    if c = '\x7b' then some 0 else (findBraceIdx cs).map (· + 1)

/-- The brace-balancing loop of `utils.safe_json_loads`: walk the text
(which starts at the first opening brace, so the depth is at least 1 until
the loop stops), incrementing the depth at `'\x7b'` and decrementing at
`'\x7d'`; when the depth returns to zero, return the prefix scanned so far
(inclusive).  `none` when the braces never balance. -/
def braceScan : List Char → ℕ → List Char → Option (List Char)
  | [], _, _ => Option.none
  | c :: cs, depth, acc =>
    if c = '\x7b' then braceScan cs (depth + 1) (acc ++ [c])
    else if c = '\x7d' then
      if depth = 1 then some (acc ++ [c])
      else braceScan cs (depth - 1) (acc ++ [c])
    else braceScan cs depth (acc ++ [c])

/-- Result of `utils.safe_json_loads`: either the parsed JSON value, or
the error dict `{"error": ..., "raw_response": ...}`.  (The exact text of
a `json.JSONDecodeError` message is not modelled; that error field is
represented by the string `"JSONDecodeError"`.) -/
inductive LoadResult where
  | ok (v : Json)
  | errObj (error : String) (raw_response : String)

/-- Embeds `utils.safe_json_loads`: extract and parse the first
balanced-brace-delimited JSON object from a response string, returning an
error dict (never raising) when no opening brace exists, the braces never
balance, or the extracted substring fails to parse. -/
def safe_json_loads (response : String) : LoadResult :=
  match findBraceIdx response.data with
  | Option.none => .errObj "No JSON object found" response
  | some start =>
    match braceScan (response.data.drop start) 0 [] with
    | some seg =>
      match json_loads ⟨seg⟩ with
      | some v => .ok v
      | Option.none => .errObj "JSONDecodeError" response
    | Option.none => .errObj "Unbalanced braces" response

lemma ratingAux_cons_none {c : Char} {cs : List Char}
    (h : matchRatingAt (c :: cs) = none) : ratingAux (c :: cs) = ratingAux cs := by
  simp [ratingAux, h]

lemma matchRatingAt_cons_ne {c : Char} {cs : List Char} (h : c ≠ 'R') :
    matchRatingAt (c :: cs) = none := by
  unfold matchRatingAt
  rw [if_neg]
  intro hc
  simp only [List.take_succ_cons] at hc
  exact h (List.cons.injEq .. ▸ hc).1

lemma ratingAux_append_of_no_R {pre l : List Char}
    (h : ∀ c ∈ pre, c ≠ 'R') : ratingAux (pre ++ l) = ratingAux l := by
  induction pre with
  | nil => rfl
  | cons c cs ih =>
    rw [List.cons_append,
      ratingAux_cons_none (matchRatingAt_cons_ne (h c (List.mem_cons_self c cs))),
      ih fun d hd => h d (List.mem_cons_of_mem _ hd)]

lemma dropWhile_eq_drop (p : α → Bool) (l : List α) :
    ∃ n, l.dropWhile p = l.drop n := by
  induction l with
  | nil => exact ⟨0, rfl⟩
  | cons c cs ih =>
    by_cases hp : p c
    · obtain ⟨n, hn⟩ := ih
      exact ⟨n + 1, by simpa [List.dropWhile_cons, hp] using hn⟩
    · exact ⟨0, by simp [List.dropWhile_cons, hp]⟩

lemma matchRatingAt_some {cs : List Char} {n : ℕ}
    (h : matchRatingAt cs = some n) :
    ∃ k, n = digitsToNat ((cs.drop k).takeWhile Char.isDigit) := by
  unfold matchRatingAt at h
  dsimp only at h
  split at h
  · obtain ⟨m, hm⟩ := dropWhile_eq_drop pyWs (cs.drop 7)
    rw [List.drop_drop] at hm
    split at h
    · exact absurd h (by simp)
    · split at h
      · exact ⟨7 + m, by rw [← hm]; exact (Option.some.inj h).symm⟩
      · exact absurd h (by simp)
  · exact absurd h (by simp)

lemma ratingAux_le_of_runs {cs : List Char}
    (h : ∀ k, digitsToNat ((cs.drop k).takeWhile Char.isDigit) ≤ 10) :
    ratingAux cs ≤ 10 := by
  induction cs with
  | nil => exact Nat.zero_le 10
  | cons c cs ih =>
    cases hm : matchRatingAt (c :: cs) with
    | some n =>
      obtain ⟨k, hk⟩ := matchRatingAt_some hm
      have : ratingAux (c :: cs) = n := by simp [ratingAux, hm]
      rw [this, hk]
      exact h k
    | none =>
      rw [ratingAux_cons_none hm]
      exact ih fun k => by simpa [List.drop_succ_cons] using h (k + 1)

lemma ratingAux_first (cs : List Char) :
    (ratingAux cs = 0 ∧ ∀ k, matchRatingAt (cs.drop k) = none) ∨
    (∃ i, (∀ k < i, matchRatingAt (cs.drop k) = none) ∧
      matchRatingAt (cs.drop i) = some (ratingAux cs)) := by
  induction cs with
  | nil =>
    left
    exact ⟨rfl, fun k => by simp [List.drop_nil, matchRatingAt]⟩
  | cons c cs ih =>
    cases hm : matchRatingAt (c :: cs) with
    | some n =>
      right
      exact ⟨0, fun k hk => absurd hk (Nat.not_lt_zero k),
        by simp [ratingAux, hm]⟩
    | none =>
      rw [ratingAux_cons_none hm]
      rcases ih with ⟨h0, hall⟩ | ⟨i, hlt, hi⟩
      · left
        refine ⟨h0, fun k => ?_⟩
        cases k with
        | zero => exact hm
        | succ k => simpa [List.drop_succ_cons] using hall k
      · right
        refine ⟨i + 1, fun k hk => ?_, by simpa [List.drop_succ_cons] using hi⟩
        cases k with
        | zero => exact hm
        | succ k => simpa [List.drop_succ_cons] using hlt k (Nat.lt_of_succ_lt_succ hk)

lemma dropWhile_idem (p : Char → Bool) (l : List Char) :
    (l.dropWhile p).dropWhile p = l.dropWhile p := by
  induction l with
  | nil => rfl
  | cons c cs ih =>
    by_cases h : p c
    · simp [List.dropWhile_cons, h, ih]
    · simp [List.dropWhile_cons, h]

lemma dropWhile_eq_self_of_append {p : Char → Bool} {l r u : List Char}
    (h : l.dropWhile p = l) (hru : r ++ u = l) : r.dropWhile p = r := by
  cases l with
  | nil =>
    have : r = [] := by
      cases r with
      | nil => rfl
      | cons a t => exact absurd hru (by simp)
    simp [this]
  | cons c t =>
    have hc : p c = false := by
      by_contra hc
      rw [Bool.not_eq_false] at hc
      rw [List.dropWhile_cons, if_pos hc] at h
      have hlen := congrArg List.length h
      simp at hlen
      have hle := (List.dropWhile_sublist (l := t) p).length_le
      omega
    cases r with
    | nil => rfl
    | cons a s =>
      have ha : a = c := by
        rw [List.cons_append] at hru
        exact (List.cons.injEq .. ▸ hru).1
      rw [ha, List.dropWhile_cons, hc]
      simp

lemma stripR_append (m : List Char) : ∃ u, m = stripR m ++ u := by
  obtain ⟨n, hn⟩ := dropWhile_eq_drop pyWs m.reverse
  refine ⟨(m.reverse.take n).reverse, ?_⟩
  unfold stripR
  rw [hn]
  calc m = m.reverse.reverse := (List.reverse_reverse m).symm
  _ = (m.reverse.take n ++ m.reverse.drop n).reverse := by rw [List.take_append_drop]
  _ = (m.reverse.drop n).reverse ++ (m.reverse.take n).reverse := List.reverse_append _ _

lemma stripL_idem (l : List Char) : stripL (stripL l) = stripL l :=
  dropWhile_idem pyWs l

lemma stripR_idem (l : List Char) : stripR (stripR l) = stripR l := by
  unfold stripR
  rw [List.reverse_reverse]
  rw [dropWhile_idem]

lemma stripL_stripR (m : List Char) (h : stripL m = m) :
    stripL (stripR m) = stripR m := by
  obtain ⟨u, hu⟩ := stripR_append m
  exact dropWhile_eq_self_of_append h hu.symm

lemma pyStrip_idem (s : String) : pyStrip (pyStrip s) = pyStrip s := by
  show (⟨stripR (stripL (stripR (stripL s.data)))⟩ : String) = ⟨stripR (stripL s.data)⟩
  rw [stripL_stripR (stripL s.data) (stripL_idem s.data),
    stripR_idem]

/-- C1: for every candidate, the aggregate score equals
`0.4*(rating*10) + 0.6*final_pct`, where `rating` is the integer returned
by `extract_rating` on the raw model text and `final_pct` is the
skill-match score, which is `0` when the job posting has no required
skills; the experience rating is rescaled to a 0-100 percentage before
fusion. -/
theorem aggregate_score_spec (sem : List String → List String → Option ℚ)
    (jdSkills : PyVal) (c : Candidate) :
    (processCandidate sem jdSkills c).aggregate_score =
      2/5 * ((extract_rating (processCandidate sem jdSkills c).score_and_explanation : ℚ) * 10) +
        3/5 * (processCandidate sem jdSkills c).skill_match_result.final_match_score ∧
    (pyTruthy jdSkills = false →
      (processCandidate sem jdSkills c).skill_match_result.final_match_score = 0) := by
  constructor
  · simp only [processCandidate]
    ring
  · intro h
    simp [processCandidate, h]

theorem aggregate_score_spec_witness :
    (processCandidate (fun _ _ => Option.none) (PyVal.list [])
        ⟨"A", "Rating: 7/10", PyVal.list []⟩).aggregate_score =
      2/5 * ((extract_rating (processCandidate (fun _ _ => Option.none) (PyVal.list [])
        ⟨"A", "Rating: 7/10", PyVal.list []⟩).score_and_explanation : ℚ) * 10) +
        3/5 * (processCandidate (fun _ _ => Option.none) (PyVal.list [])
        ⟨"A", "Rating: 7/10", PyVal.list []⟩).skill_match_result.final_match_score ∧
    (processCandidate (fun _ _ => Option.none) (PyVal.list [])
        ⟨"A", "Rating: 7/10", PyVal.list []⟩).skill_match_result.final_match_score = 0 :=
  ⟨(aggregate_score_spec (fun _ _ => Option.none) (PyVal.list [])
      ⟨"A", "Rating: 7/10", PyVal.list []⟩).1,
   (aggregate_score_spec (fun _ _ => Option.none) (PyVal.list [])
      ⟨"A", "Rating: 7/10", PyVal.list []⟩).2 rfl⟩

/-- C3: for every pair of skill lists, the combined skill score satisfies
`final_pct == 0.4*exact_pct + 0.6*semantic_pct` exactly, for whatever
sub-scores the exact and semantic scorers compute (any semantic oracle
`sem`, including the fallback cases folded into
`calculate_skills_match`). -/
theorem final_skills_match_spec (sem : List String → List String → Option ℚ)
    (jd_skills resume_skills : List String) :
    calculate_final_skills_match sem jd_skills resume_skills =
      2/5 * calculate_exact_match jd_skills resume_skills +
        3/5 * calculate_skills_match sem resume_skills jd_skills := by
  unfold calculate_final_skills_match
  ring

/-- C4: the exact match scorer case-folds and deduplicates both lists into
sets and returns `|required ∩ candidate| / |required| * 100`, returning
`0` when the required set is empty; the denominator is always the
required-skill count, so the function is not symmetric in its
arguments. -/
lemma calculate_exact_match_eval {jd_skills resume_skills : List String}
    {a b : ℕ} (hj : skillSet jd_skills ≠ [])
    (hi : ((skillSet jd_skills).inter (skillSet resume_skills)).length = a)
    (hl : (skillSet jd_skills).length = b) :
    calculate_exact_match jd_skills resume_skills = (a : ℚ) / (b : ℚ) * 100 := by
  rw [calculate_exact_match, if_neg hj, hi, hl]

theorem exact_match_spec :
    (∀ jd_skills resume_skills,
      calculate_exact_match jd_skills resume_skills =
        if skillSet jd_skills = [] then 0
        else (((skillSet jd_skills).inter (skillSet resume_skills)).length : ℚ) /
          ((skillSet jd_skills).length : ℚ) * 100) ∧
    (∀ resume_skills, calculate_exact_match [] resume_skills = 0) ∧
    calculate_exact_match ["Python", "SQL"] ["  python  ", "PYTHON"] = 50 ∧
    calculate_exact_match ["a", "b"] ["a"] ≠ calculate_exact_match ["a"] ["a", "b"] := by
  refine ⟨fun _ _ => rfl, fun _ => rfl, ?_, ?_⟩
  · rw [calculate_exact_match_eval (a := 1) (b := 2) (by decide) (by decide) (by decide)]
    norm_num
  · rw [calculate_exact_match_eval (a := 1) (b := 2) (by decide) (by decide) (by decide),
      calculate_exact_match_eval (a := 1) (b := 1) (by decide) (by decide) (by decide)]
    norm_num

/-- C5: the rating extractor searches the text for the literal pattern
`Rating: <integer>/10` (matching also `Experience Rating: <integer>/10`)
and returns the first matched integer, `0` when no such substring exists:
the three quoted examples evaluate as stated, and in general the result is
either `0` with no position matching, or the integer captured at the first
matching position. -/
theorem extract_rating_spec :
    extract_rating "Rating: 7/10" = 7 ∧
    extract_rating "Experience Rating: 10/10\nConclusion: good overall fit" = 10 ∧
    extract_rating "The resume text mentions no score line at all" = 0 ∧
    ∀ s : String,
      (extract_rating s = 0 ∧
        ((List.range s.data.length).all
          (fun k => (matchRatingAt (s.data.drop k)).isNone)) = true) ∨
      (∃ i, ((List.range i).all
          (fun k => (matchRatingAt (s.data.drop k)).isNone)) = true ∧
        matchRatingAt (s.data.drop i) = some (extract_rating s)) := by
  refine ⟨by decide, by decide, by decide, fun s => ?_⟩
  rcases ratingAux_first s.data with ⟨h0, hall⟩ | ⟨i, hlt, hi⟩
  · left
    refine ⟨h0, ?_⟩
    simp only [List.all_eq_true, List.mem_range, Option.isNone_iff_eq_none]
    exact fun k _ => hall k
  · right
    refine ⟨i, ?_, hi⟩
    simp only [List.all_eq_true, List.mem_range, Option.isNone_iff_eq_none]
    exact hlt

/-- C6 counterexample: the extracted rating is not always in `[0, 10]`:
the extractor performs no clamping, so `"Rating: 99/10"` yields `99`. -/
theorem rating_range_cex :
    extract_rating "Rating: 99/10" = 99 ∧ ¬ extract_rating "Rating: 99/10" ≤ 10 :=
  ⟨by decide, by decide⟩

/-- C6 amended: every extracted rating is a natural number, and it lies in
`[0, 10]` provided every greedily-read digit run of the text has value at
most `10` (the unamended claim fails on texts such as `"Rating: 99/10"`,
see `rating_range_cex`). -/
theorem extract_rating_le_ten (s : String)
    (h : ∀ k < s.data.length,
      digitsToNat ((s.data.drop k).takeWhile Char.isDigit) ≤ 10) :
    extract_rating s ≤ 10 := by
  apply ratingAux_le_of_runs
  intro k
  by_cases hk : k < s.data.length
  · exact h k hk
  · rw [List.drop_eq_nil_of_le (Nat.le_of_not_lt hk)]
    simp [digitsToNat]

theorem extract_rating_le_ten_witness :
    (∀ k < ("Experience Rating: 9/10" : String).data.length,
      digitsToNat ((("Experience Rating: 9/10" : String).data.drop k).takeWhile
        Char.isDigit) ≤ 10) ∧
    extract_rating "Experience Rating: 9/10" ≤ 10 :=
  ⟨by decide, extract_rating_le_ten "Experience Rating: 9/10" (by decide)⟩

/-- C8 counterexample: on a transport exception the requestor payload is
`"Error calling Ollama model: <message>"`, which does not have the form
`"Error calling model: <message>"` stated by the claim. -/
theorem ollama_error_prefix_cex :
    get_rank_from_ollama (.error "connection refused") =
      "Error calling Ollama model: connection refused" ∧
    ¬ ∃ rest, get_rank_from_ollama (.error "connection refused") =
      "Error calling model: " ++ rest := by
  refine ⟨rfl, ?_⟩
  rintro ⟨rest, h⟩
  have hd : ("Error calling Ollama model: connection refused" : String).data =
      ("Error calling model: " : String).data ++ rest.data := by
    rw [← String.data_append]
    exact congrArg String.data h
  have h14 : (("Error calling Ollama model: connection refused" : String).data)[14]? =
      (("Error calling model: " : String).data)[14]? := by
    rw [hd]
    exact List.getElem?_append_left (by decide)
  exact absurd h14 (by decide)

/-- C8 amended: whenever the text-generation call raises, the requestor
returns the synthetic payload `"Error calling Ollama model: <message>"`
(not `"Error calling model: ..."`), and feeding that payload to the rating
extractor yields `0` whenever the exception message itself contains no
rating pattern. -/
theorem ollama_error_spec (e : String) :
    (∃ rest, get_rank_from_ollama (.error e) =
      "Error calling Ollama model: " ++ rest) ∧
    (extract_rating e = 0 →
      extract_rating (get_rank_from_ollama (.error e)) = 0) := by
  refine ⟨⟨e, rfl⟩, fun h0 => ?_⟩
  show ratingAux ("Error calling Ollama model: " ++ e).data = 0
  rw [String.data_append, ratingAux_append_of_no_R (by decide)]
  exact h0

theorem ollama_error_spec_witness :
    (∃ rest, get_rank_from_ollama (.error "connection timed out") =
      "Error calling Ollama model: " ++ rest) ∧
    extract_rating (get_rank_from_ollama (.error "connection timed out")) = 0 :=
  ⟨(ollama_error_spec "connection timed out").1,
   (ollama_error_spec "connection timed out").2 (by decide)⟩

/-- C9 counterexample: the skill-set normalizer can output an empty string
(a whitespace-only element is truthy but strips to `""`), and it can raise
(iterating a non-iterable skills field is a `TypeError`). -/
theorem ensure_skill_list_cex :
    _ensure_skill_list (.list [.str " "]) = .ok [""] ∧
    _ensure_skill_list (.dict [("Technical Skills", .int 5)]) = .error "TypeError" :=
  ⟨rfl, rfl⟩

lemma cleanSkills_strip {vs : List PyVal} {s : String}
    (hs : s ∈ cleanSkills vs) : ∃ t, s = pyStrip t := by
  obtain ⟨v, -, hv⟩ := List.mem_map.mp hs
  exact ⟨pyStr v, hv.symm⟩

lemma fallbackSplit_strip {x : PyVal} {ys : List String}
    (h : fallbackSplit x = .ok ys) {s : String} (hs : s ∈ ys) :
    ∃ t, s = pyStrip t := by
  have hys : ((((pyStr x).splitOn ",").map pyStrip).filter (fun p => p ≠ "")) = ys :=
    Except.ok.inj h
  rw [← hys] at hs
  obtain ⟨t, -, ht⟩ := List.mem_map.mp (List.mem_of_mem_filter hs)
  exact ⟨t, ht.symm⟩

lemma ensure_skill_list_shape (x : PyVal) :
    (∃ ys, _ensure_skill_list x = .ok ys ∧ ∀ s ∈ ys, ∃ t, s = pyStrip t) ∨
    _ensure_skill_list x = .error "TypeError" := by
  by_cases ht : pyTruthy x
  · cases x with
    | none => exact absurd ht (by simp [pyTruthy])
    | str s' =>
      have heq : _ensure_skill_list (PyVal.str s') = fallbackSplit (PyVal.str s') := by
        simp [_ensure_skill_list, ht]
      exact Or.inl ⟨_, heq, fun s hs => fallbackSplit_strip rfl hs⟩
    | int n =>
      have heq : _ensure_skill_list (PyVal.int n) = fallbackSplit (PyVal.int n) := by
        simp [_ensure_skill_list, ht]
      exact Or.inl ⟨_, heq, fun s hs => fallbackSplit_strip rfl hs⟩
    | list xs =>
      exact Or.inl ⟨cleanSkills xs, by simp [_ensure_skill_list, ht],
        fun s hs => cleanSkills_strip hs⟩
    | dict d =>
      cases hv : dictSkillField d with
      | none =>
        have heq : _ensure_skill_list (PyVal.dict d) = fallbackSplit (PyVal.dict d) := by
          simp [_ensure_skill_list, ht, hv]
        exact Or.inl ⟨_, heq, fun s hs => fallbackSplit_strip rfl hs⟩
      | some v =>
        cases hit : pyIter v with
        | none =>
          right
          simp [_ensure_skill_list, ht, hv, hit]
        | some vs =>
          exact Or.inl ⟨cleanSkills vs, by simp [_ensure_skill_list, ht, hv, hit],
            fun s hs => cleanSkills_strip hs⟩
  · have hf : pyTruthy x = false := by
      cases hpt : pyTruthy x
      · rfl
      · exact absurd hpt ht
    exact Or.inl ⟨[], by simp [_ensure_skill_list, hf], by simp⟩

/-- C9 amended: the normalizer yields `[]` for `None`/empty (falsy) input;
every string it outputs is stripped of surrounding whitespace (but may be
empty, see `ensure_skill_list_cex`); and the only way it can raise is the
`TypeError` from iterating a non-iterable skills field. -/
theorem ensure_skill_list_spec (x : PyVal) :
    (pyTruthy x = false → _ensure_skill_list x = .ok []) ∧
    (∀ ys, _ensure_skill_list x = .ok ys → ∀ s ∈ ys, pyStrip s = s) ∧
    (∀ e, _ensure_skill_list x = .error e → e = "TypeError") := by
  refine ⟨fun hf => by simp [_ensure_skill_list, hf], ?_, ?_⟩
  · intro ys hok s hs
    rcases ensure_skill_list_shape x with ⟨ys', hok', hstrip⟩ | herr
    · rw [hok'] at hok
      obtain ⟨t, ht⟩ := hstrip s (Except.ok.inj hok ▸ hs)
      rw [ht, pyStrip_idem]
    · rw [herr] at hok
      exact absurd hok (by simp)
  · intro e herr
    rcases ensure_skill_list_shape x with ⟨ys', hok', -⟩ | herr'
    · rw [hok'] at herr
      exact absurd herr (by simp)
    · rw [herr'] at herr
      exact (Except.error.inj herr).symm

theorem ensure_skill_list_spec_witness :
    _ensure_skill_list PyVal.none = Except.ok [] ∧ pyStrip "a" = "a" :=
  ⟨(ensure_skill_list_spec PyVal.none).1 rfl,
   (ensure_skill_list_spec (PyVal.list [PyVal.str "a"])).2.1 ["a"] rfl "a"
     (List.mem_singleton.mpr rfl)⟩

lemma rankLE_trans (a b c : RankingResult)
    (hab : decide (b.aggregate_score ≤ a.aggregate_score) = true)
    (hbc : decide (c.aggregate_score ≤ b.aggregate_score) = true) :
    decide (c.aggregate_score ≤ a.aggregate_score) = true := by
  simp only [decide_eq_true_eq] at *
  exact le_trans hbc hab

lemma rankLE_total (a b : RankingResult) :
    (decide (b.aggregate_score ≤ a.aggregate_score) ||
      decide (a.aggregate_score ≤ b.aggregate_score)) = true := by
  simp only [Bool.or_eq_true, decide_eq_true_eq]
  exact (le_total b.aggregate_score a.aggregate_score).imp id id

/-- C2: the ranking engine returns exactly the scored results of all
candidates (a permutation: none is discarded), sorted in descending order
of aggregate score, and the sort is stable: any two results appearing in
that order in the input with equal totals appear in the same relative
order in the output. -/
theorem rank_candidates_sorted (sem : List String → List String → Option ℚ)
    (jdSkills : PyVal) (cs : List Candidate) :
    (rank_candidates sem jdSkills cs).Perm
      (cs.map (processCandidate sem jdSkills)) ∧
    (rank_candidates sem jdSkills cs).Pairwise
      (fun a b => b.aggregate_score ≤ a.aggregate_score) ∧
    (∀ a b, [a, b].Sublist (cs.map (processCandidate sem jdSkills)) →
      a.aggregate_score = b.aggregate_score →
      [a, b].Sublist (rank_candidates sem jdSkills cs)) := by
  refine ⟨List.mergeSort_perm _ _, ?_, ?_⟩
  · have hs := List.sorted_mergeSort rankLE_trans rankLE_total
      (cs.map (processCandidate sem jdSkills))
    exact hs.imp fun h => of_decide_eq_true h
  · intro a b hsub heq
    exact List.pair_sublist_mergeSort rankLE_trans rankLE_total
      (decide_eq_true (le_of_eq heq.symm)) hsub

theorem rank_candidates_sorted_witness :
    [processCandidate (fun _ _ => Option.none) PyVal.none ⟨"A", "Rating: 5/10", PyVal.none⟩,
     processCandidate (fun _ _ => Option.none) PyVal.none ⟨"B", "Rating: 5/10", PyVal.none⟩].Sublist
      (rank_candidates (fun _ _ => Option.none) PyVal.none
        [⟨"A", "Rating: 5/10", PyVal.none⟩, ⟨"B", "Rating: 5/10", PyVal.none⟩]) :=
  (rank_candidates_sorted (fun _ _ => Option.none) PyVal.none
      [⟨"A", "Rating: 5/10", PyVal.none⟩, ⟨"B", "Rating: 5/10", PyVal.none⟩]).2.2
    _ _ (List.Sublist.refl _) rfl

/-- C7: the balanced-JSON extractor never raises and, for every input,
either returns a parsed value or an object carrying an `error` field and a
`raw_response` field equal to the original input; on
`noise {"a": {"b": 1}} trailing` it parses the first balanced object
`{"a": {"b": 1}}`, and on the unterminated `{"a": ` it reports
unbalanced braces with `raw_response` equal to the input. -/
theorem safe_json_loads_spec :
    (∀ s : String, (∃ v, safe_json_loads s = .ok v) ∨
      ∃ e, safe_json_loads s = .errObj e s) ∧
    safe_json_loads "noise \x7b\"a\": \x7b\"b\": 1\x7d\x7d trailing" =
      .ok (.obj [("a", .obj [("b", .num 1)])]) ∧
    safe_json_loads "\x7b\"a\": " = .errObj "Unbalanced braces" "\x7b\"a\": " := by
  refine ⟨fun s => ?_, rfl, rfl⟩
  cases hf : findBraceIdx s.data with
  | none => exact Or.inr ⟨"No JSON object found", by simp [safe_json_loads, hf]⟩
  | some start =>
    cases hb : braceScan (s.data.drop start) 0 [] with
    | none => exact Or.inr ⟨"Unbalanced braces", by simp [safe_json_loads, hf, hb]⟩
    | some seg =>
      cases hj : json_loads ⟨seg⟩ with
      | none => exact Or.inr ⟨"JSONDecodeError", by simp [safe_json_loads, hf, hb, hj]⟩
      | some v => exact Or.inl ⟨v, by simp [safe_json_loads, hf, hb, hj]⟩

/-- C10: the balance walk counts braces inside JSON string literals too:
on `{"a": "}"}` — a syntactically valid JSON object whose string value
contains `'\x7d'`, as `json_loads` confirms — the scan stops at the brace
inside the string, handing the parser the unterminated prefix
`{"a": "}`, so the extractor returns an error object instead of the
parsed value. -/
theorem brace_count_in_string_spec :
    json_loads "\x7b\"a\": \"\x7d\"\x7d" = some (.obj [("a", .str "\x7d")]) ∧
    braceScan ("\x7b\"a\": \"\x7d\"\x7d" : String).data 0 [] =
      some ("\x7b\"a\": \"\x7d" : String).data ∧
    safe_json_loads "\x7b\"a\": \"\x7d\"\x7d" =
      .errObj "JSONDecodeError" "\x7b\"a\": \"\x7d\"\x7d" :=
  ⟨rfl, rfl, rfl⟩
